import Mathlib

/-!
Verification of the natural-language specification of `chalice/awsclient.py`
(`TypedAWSClient`) against a shallow Lean embedding of its code.

Remote calls are modelled by their observable effects: a fault injector
(`Nat → CallOutcome`) stands for the sequence of outcomes the provider
returns, and operations that issue several network calls are embedded as
functions emitting the list of calls they make.
-/

namespace AwsClient

/-! ### Constants (`TypedAWSClient.LAMBDA_CREATE_ATTEMPTS`, `DELAY_TIME`) -/

def LAMBDA_CREATE_ATTEMPTS : Nat := 30

def DELAY_TIME : Nat := 5

/-! ### `create_function` retry loop (lines 94-108)

Each iteration of the `while True` loop calls `client.create_function`; on
`InvalidParameterValueException` it sleeps `DELAY_TIME`, increments
`attempts`, and re-raises once `attempts >= LAMBDA_CREATE_ATTEMPTS`.
Any other exception propagates out of the loop; on success the
`FunctionArn` is returned.  The injector `inj` gives the outcome of the
`i`-th invocation of `client.create_function`. -/

inductive CallOutcome where
  | success (arn : String)
  | invalidParameter
  | otherFailure
  deriving DecidableEq, Repr

inductive CreateResult where
  | ok (arn : String)
  | invalidParameterRaised
  | otherRaised
  deriving DecidableEq, Repr

structure CreateTrace where
  result : CreateResult
  calls : Nat
  sleeps : Nat
  sleepTotal : Nat
  deriving DecidableEq, Repr

/-- The body of `create_function`'s `while True` loop, entered with the
current value of the `attempts` counter (which also indexes the next
invocation of the underlying create call, since `attempts` is incremented
exactly once per failed invocation). -/
def createLoop (inj : Nat → CallOutcome) (attempts : Nat) : CreateTrace :=
  match inj attempts with
  | .success arn => ⟨.ok arn, 1, 0, 0⟩
  | .otherFailure => ⟨.otherRaised, 1, 0, 0⟩
  | .invalidParameter =>
      -- self._sleep(self.DELAY_TIME); attempts += 1;
      -- if attempts >= self.LAMBDA_CREATE_ATTEMPTS: raise
      if _h : LAMBDA_CREATE_ATTEMPTS ≤ attempts + 1 then
        ⟨.invalidParameterRaised, 1, 1, DELAY_TIME⟩
      else
        let t := createLoop inj (attempts + 1)
        ⟨t.result, t.calls + 1, t.sleeps + 1, t.sleepTotal + DELAY_TIME⟩
termination_by LAMBDA_CREATE_ATTEMPTS - attempts
decreasing_by
  simp only [LAMBDA_CREATE_ATTEMPTS] at *
  omega

/-- `create_function`, entered with `attempts = 0`. -/
def create_function (inj : Nat → CallOutcome) : CreateTrace :=
  createLoop inj 0

/-- An injector that fails with the transient class on the first `k`
invocations and then succeeds with `arn`. -/
def failKThenSucceed (k : Nat) (arn : String) : Nat → CallOutcome :=
  fun i => if i < k then .invalidParameter else .success arn

/-- An injector that always fails with the transient class. -/
def alwaysInvalid : Nat → CallOutcome := fun _ => .invalidParameter

lemma createLoop_success (inj : Nat → CallOutcome) (arn : String) (attempts : Nat)
    (h : inj attempts = .success arn) :
    createLoop inj attempts = ⟨.ok arn, 1, 0, 0⟩ := by
  rw [createLoop, h]

lemma createLoop_other (inj : Nat → CallOutcome) (attempts : Nat)
    (h : inj attempts = .otherFailure) :
    createLoop inj attempts = ⟨.otherRaised, 1, 0, 0⟩ := by
  rw [createLoop, h]

/-- Main retry lemma: if from position `attempts` the injector fails with
the transient class `m` times and then succeeds, and the ceiling is not
hit, the loop returns the ARN having made `m + 1` calls and `m` sleeps. -/
lemma createLoop_retries (inj : Nat → CallOutcome) (arn : String) :
    ∀ m attempts, attempts + m < LAMBDA_CREATE_ATTEMPTS →
    (∀ i, i < m → inj (attempts + i) = .invalidParameter) →
    inj (attempts + m) = .success arn →
    createLoop inj attempts = ⟨.ok arn, m + 1, m, m * DELAY_TIME⟩ := by
  intro m
  induction m with
  | zero =>
      intro attempts _ _ hsucc
      simpa using createLoop_success inj arn attempts (by simpa using hsucc)
  | succ n ih =>
      intro attempts hceil hfail hsucc
      have h0 : inj attempts = .invalidParameter := by
        simpa using hfail 0 (Nat.succ_pos n)
      rw [createLoop, h0]
      have hlt : ¬ LAMBDA_CREATE_ATTEMPTS ≤ attempts + 1 := by omega
      simp only [hlt, dif_neg, not_false_iff]
      have hrec : createLoop inj (attempts + 1) = ⟨.ok arn, n + 1, n, n * DELAY_TIME⟩ := by
        apply ih
        · omega
        · intro i hi
          have := hfail (i + 1) (by omega)
          simpa [Nat.add_assoc, Nat.add_comm 1 i] using this
        · have : attempts + 1 + n = attempts + (n + 1) := by omega
          rw [this]
          exact hsucc
      rw [hrec]
      simp [Nat.succ_mul]

/-- Exhaustion lemma: if the injector fails with the transient class on
every invocation, the loop from `attempts < ceiling` re-raises after
`ceiling - attempts` calls and as many sleeps. -/
lemma createLoop_exhausts (inj : Nat → CallOutcome) :
    ∀ fuel attempts, attempts + fuel = LAMBDA_CREATE_ATTEMPTS → 0 < fuel →
    (∀ i, i < fuel → inj (attempts + i) = .invalidParameter) →
    createLoop inj attempts =
      ⟨.invalidParameterRaised, fuel, fuel, fuel * DELAY_TIME⟩ := by
  intro fuel
  induction fuel with
  | zero => intro _ _ h; omega
  | succ n ih =>
      intro attempts hsum _ hfail
      have h0 : inj attempts = .invalidParameter := by
        simpa using hfail 0 (Nat.succ_pos n)
      rw [createLoop, h0]
      by_cases hceil : LAMBDA_CREATE_ATTEMPTS ≤ attempts + 1
      · have hn : n = 0 := by omega
        subst hn
        simp [hceil, DELAY_TIME]
      · simp only [hceil, dif_neg, not_false_iff]
        have hrec : createLoop inj (attempts + 1) =
            ⟨.invalidParameterRaised, n, n, n * DELAY_TIME⟩ := by
          apply ih
          · omega
          · omega
          · intro i hi
            have := hfail (i + 1) (by omega)
            simpa [Nat.add_assoc, Nat.add_comm 1 i] using this
        rw [hrec]
        simp [Nat.succ_mul]

/-- Propagation lemma: if from position `attempts` the injector fails with
the transient class `m` times and then fails with a different class, and
the ceiling is not hit, the loop re-raises that failure immediately after
`m + 1` calls and the `m` sleeps of the preceding retries — no further
sleep. -/
lemma createLoop_other_after (inj : Nat → CallOutcome) :
    ∀ m attempts, attempts + m < LAMBDA_CREATE_ATTEMPTS →
    (∀ i, i < m → inj (attempts + i) = .invalidParameter) →
    inj (attempts + m) = .otherFailure →
    createLoop inj attempts = ⟨.otherRaised, m + 1, m, m * DELAY_TIME⟩ := by
  intro m
  induction m with
  | zero =>
      intro attempts _ _ hother
      simpa using createLoop_other inj attempts (by simpa using hother)
  | succ n ih =>
      intro attempts hceil hfail hother
      have h0 : inj attempts = .invalidParameter := by
        simpa using hfail 0 (Nat.succ_pos n)
      rw [createLoop, h0]
      have hlt : ¬ LAMBDA_CREATE_ATTEMPTS ≤ attempts + 1 := by omega
      simp only [hlt, dif_neg, not_false_iff]
      have hrec : createLoop inj (attempts + 1) =
          ⟨.otherRaised, n + 1, n, n * DELAY_TIME⟩ := by
        apply ih
        · omega
        · intro i hi
          have := hfail (i + 1) (by omega)
          simpa [Nat.add_assoc, Nat.add_comm 1 i] using this
        · have heq : attempts + 1 + n = attempts + (n + 1) := by omega
          rw [heq]
          exact hother
      rw [hrec]
      simp [Nat.succ_mul]

/-! ### Tags (`_update_function_tags` and helpers, lines 154-178)

A Python `dict` of tags is embedded as an association list whose keys are
unique (`nodupKeys`); `tagLookup` is `dict.__getitem__`/`get`. -/

abbrev TagSet := List (String × String)

def tagLookup (d : TagSet) (k : String) : Option String :=
  match d with
  | [] => none
  | (k', v) :: rest => if k' = k then some v else tagLookup rest k

def tagKeys (d : TagSet) : List String := d.map Prod.fst

def nodupKeys (d : TagSet) : Prop := (tagKeys d).Nodup

/-- `list(set(remote_tags) - set(requested_tags))` (line 166): keys present
remotely but absent from the requested tags. -/
def tag_keys_to_remove (requested remote : TagSet) : List String :=
  (tagKeys remote).filter (fun k => decide (¬ k ∈ tagKeys requested))

/-- `{k: v for k, v in requested_tags.items() if k not in remote_tags or
v != remote_tags[k]}` (lines 174-175). -/
def tags_to_add (requested remote : TagSet) : TagSet :=
  requested.filter (fun kv =>
    match tagLookup remote kv.1 with
    | none => true
    | some v => decide (v ≠ kv.2))

/-- The network calls the lambda client can receive (modelled calls). -/
inductive LambdaCall where
  | updateFunctionCode (functionName : String) (zipContents : String)
  | updateFunctionConfiguration (functionName : String)
      (env : Option TagSet) (runtime : Option String)
      (timeout : Option Nat) (memorySize : Option Nat)
  | listTags (resource : String)
  | untagResource (resource : String) (keys : List String)
  | tagResource (resource : String) (tags : TagSet)
  deriving DecidableEq, Repr

/-- `_remove_unrequested_remote_tags` (lines 163-169), as the list of
network calls it issues. -/
def remove_unrequested_remote_tags (arn : String) (requested remote : TagSet) :
    List LambdaCall :=
  if tag_keys_to_remove requested remote = [] then []
  else [.untagResource arn (tag_keys_to_remove requested remote)]

/-- `_add_missing_or_differing_value_requested_tags` (lines 171-178), as the
list of network calls it issues. -/
def add_missing_or_differing_value_requested_tags (arn : String)
    (requested remote : TagSet) : List LambdaCall :=
  if tags_to_add requested remote = [] then []
  else [.tagResource arn (tags_to_add requested remote)]

/-- `_update_function_tags` (lines 154-161): fetch the remote tags (the
`remote` argument is the response), then remove, then add. -/
def update_function_tags (arn : String) (requested remote : TagSet) :
    List LambdaCall :=
  .listTags arn ::
    (remove_unrequested_remote_tags arn requested remote ++
      add_missing_or_differing_value_requested_tags arn requested remote)

/-- Removing a set of keys from a tag mapping (the effect of
`untag_resource` on the remote state). -/
def removeKeys (d : TagSet) (ks : List String) : TagSet :=
  d.filter (fun kv => decide (¬ kv.1 ∈ ks))

/-- Python `dict.update`: entries of `upd` override entries of `base` (the
effect of `tag_resource` on the remote state). -/
def dictUpdate (base upd : TagSet) : TagSet :=
  base.filter (fun kv => decide (¬ kv.1 ∈ tagKeys upd)) ++ upd

/-- The remote tag state after applying the removals and then the upserts
computed by the reconciler. -/
def applyReconcile (requested remote : TagSet) : TagSet :=
  dictUpdate (removeKeys remote (tag_keys_to_remove requested remote))
    (tags_to_add requested remote)

lemma tagLookup_eq_none_iff (d : TagSet) (k : String) :
    tagLookup d k = none ↔ ¬ k ∈ tagKeys d := by
  induction d with
  | nil => simp [tagLookup, tagKeys]
  | cons kv rest ih =>
      obtain ⟨k', v'⟩ := kv
      by_cases h : k' = k
      · subst h
        simp [tagLookup, tagKeys]
      · simp only [tagLookup, if_neg h]
        rw [ih]
        simp only [tagKeys, List.map_cons, List.mem_cons]
        constructor
        · intro hn h2
          rcases h2 with h2 | h2
          · exact h h2.symm
          · exact hn h2
        · intro hn h2
          exact hn (Or.inr h2)

lemma mem_tagKeys_of_lookup {d : TagSet} {k v : String}
    (h : tagLookup d k = some v) : k ∈ tagKeys d := by
  by_contra hk
  rw [← tagLookup_eq_none_iff] at hk
  rw [h] at hk
  exact Option.noConfusion hk

lemma nodupKeys_tail {k' v' : String} {rest : TagSet}
    (h : nodupKeys ((k', v') :: rest)) :
    ¬ k' ∈ tagKeys rest ∧ nodupKeys rest := by
  simpa [nodupKeys, tagKeys, List.nodup_cons] using h

lemma tagLookup_eq_some_iff {d : TagSet} (hd : nodupKeys d) (k v : String) :
    tagLookup d k = some v ↔ (k, v) ∈ d := by
  induction d with
  | nil => simp [tagLookup]
  | cons kv rest ih =>
      obtain ⟨k', v'⟩ := kv
      obtain ⟨hnotin, hrest⟩ := nodupKeys_tail hd
      by_cases h : k' = k
      · subst h
        simp only [tagLookup, if_pos rfl, List.mem_cons]
        constructor
        · rintro h2
          exact Or.inl (by
            cases h2
            rfl)
        · rintro (h2 | h2)
          · cases h2
            rfl
          · exact absurd (List.mem_map_of_mem Prod.fst h2) hnotin
      · simp only [tagLookup, if_neg h, List.mem_cons]
        rw [ih hrest]
        constructor
        · exact fun h2 => Or.inr h2
        · rintro (h2 | h2)
          · cases h2
            exact absurd rfl h
          · exact h2

lemma tagLookup_filter (p : String × String → Bool) {d : TagSet}
    (hd : nodupKeys d) (k : String) :
    tagLookup (d.filter p) k =
      (tagLookup d k).bind (fun v => if p (k, v) then some v else none) := by
  induction d with
  | nil => simp [tagLookup]
  | cons kv rest ih =>
      obtain ⟨k', v'⟩ := kv
      obtain ⟨hnotin, hrest⟩ := nodupKeys_tail hd
      by_cases h : k' = k
      · subst h
        cases hp : p (k', v') with
        | true =>
            simp [List.filter_cons, hp, tagLookup]
        | false =>
            have hnone : tagLookup rest k' = none :=
              (tagLookup_eq_none_iff rest k').2 hnotin
            simp [List.filter_cons, hp, tagLookup, ih hrest, hnone]
      · cases hp : p (k', v') with
        | true =>
            simp [List.filter_cons, hp, tagLookup, h, ih hrest]
        | false =>
            simp [List.filter_cons, hp, tagLookup, h, ih hrest]

lemma tagLookup_filter_of_true (p : String × String → Bool) (d : TagSet)
    (k : String) (h : ∀ kv, kv ∈ d → kv.1 = k → p kv = true) :
    tagLookup (d.filter p) k = tagLookup d k := by
  induction d with
  | nil => simp
  | cons kv rest ih =>
      obtain ⟨k', v'⟩ := kv
      have ih' := ih (fun kv hkv => h kv (List.mem_cons_of_mem _ hkv))
      by_cases hk : k' = k
      · subst hk
        have hp : p (k', v') = true := h (k', v') (List.mem_cons_self _ _) rfl
        simp [List.filter_cons, hp, tagLookup]
      · cases hp : p (k', v') with
        | true => simp [List.filter_cons, hp, tagLookup, hk, ih']
        | false => simp [List.filter_cons, hp, tagLookup, hk, ih']

lemma tagLookup_filter_of_false (p : String × String → Bool) (d : TagSet)
    (k : String) (h : ∀ kv, kv ∈ d → kv.1 = k → p kv = false) :
    tagLookup (d.filter p) k = none := by
  induction d with
  | nil => simp [tagLookup]
  | cons kv rest ih =>
      obtain ⟨k', v'⟩ := kv
      have ih' := ih (fun kv hkv => h kv (List.mem_cons_of_mem _ hkv))
      by_cases hk : k' = k
      · subst hk
        have hp : p (k', v') = false := h (k', v') (List.mem_cons_self _ _) rfl
        simp [List.filter_cons, hp, ih']
      · cases hp : p (k', v') with
        | true => simp [List.filter_cons, hp, tagLookup, hk, ih']
        | false => simp [List.filter_cons, hp, ih']

lemma tagLookup_append (a b : TagSet) (k : String) :
    tagLookup (a ++ b) k =
      match tagLookup a k with
      | some v => some v
      | none => tagLookup b k := by
  induction a with
  | nil => simp [tagLookup]
  | cons kv rest ih =>
      obtain ⟨k', v'⟩ := kv
      by_cases h : k' = k
      · subst h
        simp [tagLookup]
      · simp [tagLookup, h, ih]

lemma tagLookup_dictUpdate (base upd : TagSet) (k : String) :
    tagLookup (dictUpdate base upd) k =
      match tagLookup upd k with
      | some v => some v
      | none => tagLookup base k := by
  rw [dictUpdate, tagLookup_append]
  by_cases h : k ∈ tagKeys upd
  · have h1 : tagLookup
        (base.filter (fun kv => decide (¬ kv.1 ∈ tagKeys upd))) k = none := by
      apply tagLookup_filter_of_false
      intro kv _ hk
      simp [hk, h]
    rw [h1]
    cases h3 : tagLookup upd k with
    | none => exact absurd ((tagLookup_eq_none_iff upd k).1 h3) (by simpa using h)
    | some v => rfl
  · have h2 : tagLookup upd k = none := (tagLookup_eq_none_iff upd k).2 h
    have h1 : tagLookup
        (base.filter (fun kv => decide (¬ kv.1 ∈ tagKeys upd))) k =
        tagLookup base k := by
      apply tagLookup_filter_of_true
      intro kv _ hk
      simp [hk, h]
    rw [h1, h2]
    cases tagLookup base k <;> rfl

lemma mem_tag_keys_to_remove {requested remote : TagSet} {k : String} :
    k ∈ tag_keys_to_remove requested remote ↔
      k ∈ tagKeys remote ∧ ¬ k ∈ tagKeys requested := by
  simp [tag_keys_to_remove]

lemma tagLookup_removeKeys_of_requested {requested remote : TagSet}
    {k : String} (h : k ∈ tagKeys requested) :
    tagLookup (removeKeys remote (tag_keys_to_remove requested remote)) k =
      tagLookup remote k := by
  unfold removeKeys
  apply tagLookup_filter_of_true
  intro kv _ hk
  subst hk
  simp only [decide_eq_true_eq]
  rw [mem_tag_keys_to_remove]
  exact fun h2 => h2.2 h

lemma tagLookup_removeKeys_of_unrequested {requested remote : TagSet}
    {k : String} (h : ¬ k ∈ tagKeys requested) :
    tagLookup (removeKeys remote (tag_keys_to_remove requested remote)) k =
      none := by
  unfold removeKeys
  by_cases hr : k ∈ tagKeys remote
  · apply tagLookup_filter_of_false
    intro kv _ hk
    subst hk
    simp only [decide_eq_false_iff_not, not_not]
    exact mem_tag_keys_to_remove.2 ⟨hr, h⟩
  · rw [tagLookup_filter_of_true]
    · exact (tagLookup_eq_none_iff remote k).2 hr
    · intro kv hkv hk
      exact absurd (hk ▸ List.mem_map_of_mem Prod.fst hkv) hr

/-- Applying the computed removals and upserts to the remote tag set yields
a tag set extensionally equal to the requested one. -/
lemma tagLookup_applyReconcile (requested remote : TagSet)
    (hreq : nodupKeys requested) (k : String) :
    tagLookup (applyReconcile requested remote) k = tagLookup requested k := by
  unfold applyReconcile tags_to_add
  rw [tagLookup_dictUpdate, tagLookup_filter _ hreq]
  cases hr : tagLookup requested k with
  | none =>
      have hmem : ¬ k ∈ tagKeys requested := (tagLookup_eq_none_iff requested k).1 hr
      simp only [Option.none_bind]
      exact tagLookup_removeKeys_of_unrequested hmem
  | some v =>
      have hmem : k ∈ tagKeys requested := mem_tagKeys_of_lookup hr
      simp only [Option.some_bind]
      cases hrem : tagLookup remote k with
      | none =>
          simp
      | some w =>
          have hA := @tagLookup_removeKeys_of_requested requested remote k hmem
          by_cases hw : w = v
          · subst hw
            simp [hA, hrem]
          · simp [hw]

/-! ### Lambda policy statements and the API gateway grant
(`add_permission_for_apigateway_if_needed`, `_gives_apigateway_access`,
`add_permission_for_apigateway`, `_build_source_arn_str`;
lines 286-364 and 417-441)

A statement is the Python dict; an `Option` field is `none` when the
corresponding key is absent.  `statement['Action']` is a raising lookup,
the other lookups are `.get` chains with defaults. -/

structure ArnLikeMap where
  awsSourceArn : Option String
  deriving DecidableEq, Repr

structure ConditionMap where
  arnLike : Option ArnLikeMap
  deriving DecidableEq, Repr

structure PrincipalMap where
  service : Option String
  deriving DecidableEq, Repr

structure Statement where
  action : Option String
  condition : Option ConditionMap
  principal : Option PrincipalMap
  sid : Option String
  resource : Option String
  deriving DecidableEq, Repr

/-- A policy document; `statement = none` models a document without a
`Statement` key (`policy.get('Statement', [])` then yields `[]`). -/
structure Policy where
  statement : Option (List Statement)
  deriving DecidableEq, Repr

/-- `statement.get('Condition', {}).get('ArnLike', {}).get('AWS:SourceArn', '')`
(lines 342-344). -/
def statementSourceArn (s : Statement) : String :=
  ((s.condition.getD ⟨none⟩).arnLike.getD ⟨none⟩).awsSourceArn.getD ""

/-- `statement.get('Principal', {}).get('Service', '')` (lines 346-347). -/
def statementPrincipalService (s : Statement) : String :=
  (s.principal.getD ⟨none⟩).service.getD ""

/-- `_gives_apigateway_access` (lines 338-352).  `none` models the
`KeyError` raised by `statement['Action']` when the key is absent. -/
def gives_apigateway_access (statement : Statement)
    (function_name source_arn : String) : Option Bool :=
  match statement.action with
  | none => none
  | some action =>
      if ¬ action = "lambda:InvokeFunction" then some false
      else if statementSourceArn statement ≠ source_arn then some false
      else if statementPrincipalService statement ≠ "apigateway.amazonaws.com" then
        some false
      else some true

/-- `_build_source_arn_str` (lines 432-441). -/
def build_source_arn_str (region_name account_id rest_api_id : String) : String :=
  "arn:aws:execute-api:" ++ region_name ++ ":" ++ account_id ++ ":" ++
    rest_api_id ++ "/*"

inductive ApiPermissionCall where
  | addPermission (action functionName statementId principal sourceArn : String)
  deriving DecidableEq, Repr

/-- `add_permission_for_apigateway` (lines 417-430), as the network call it
issues. -/
def add_permission_for_apigateway (function_name region_name account_id
    rest_api_id random_id : String) : List ApiPermissionCall :=
  [.addPermission "lambda:InvokeFunction" function_name random_id
    "apigateway.amazonaws.com"
    (build_source_arn_str region_name account_id rest_api_id)]

/-- The `for statement in policy.get('Statement', [])` scan with early
`break` on a match (lines 329-333); `none` propagates the `KeyError` of a
statement without an `Action` key. -/
def scanStatements (stmts : List Statement) (function_name source_arn : String) :
    Option Bool :=
  match stmts with
  | [] => some false
  | s :: rest =>
      match gives_apigateway_access s function_name source_arn with
      | none => none
      | some true => some true
      | some false => scanStatements rest function_name source_arn

/-- Outcome of `get_function_policy` as observed by the caller. -/
inductive FetchPolicyResult where
  | ok (policy : Policy)
  | resourceNotFound
  | otherFailure
  deriving DecidableEq, Repr

/-- Result of `add_permission_for_apigateway_if_needed`. -/
inductive AddPermOutcome where
  | calls (cs : List ApiPermissionCall)
  | keyError
  | fetchFailure
  deriving DecidableEq, Repr

/-- `add_permission_for_apigateway_if_needed` (lines 286-336): fetch the
policy (`fetch` is the outcome), treat a not-found fetch as "no
permissions", scan the statements, and grant only when no statement
matches. -/
def add_permission_for_apigateway_if_needed (function_name region_name
    account_id rest_api_id random_id : String) (fetch : FetchPolicyResult) :
    AddPermOutcome :=
  match fetch with
  | .otherFailure => .fetchFailure
  | .resourceNotFound =>
      .calls (add_permission_for_apigateway function_name region_name
        account_id rest_api_id random_id)
  | .ok policy =>
      match scanStatements (policy.statement.getD []) function_name
          (build_source_arn_str region_name account_id rest_api_id) with
      | none => .keyError
      | some true => .calls []
      | some false =>
          .calls (add_permission_for_apigateway function_name region_name
            account_id rest_api_id random_id)

lemma scanStatements_true_iff (stmts : List Statement) (fn arn : String)
    (h : ∀ s ∈ stmts, (gives_apigateway_access s fn arn).isSome) :
    scanStatements stmts fn arn = some true ↔
      ∃ s ∈ stmts, gives_apigateway_access s fn arn = some true := by
  induction stmts with
  | nil => simp [scanStatements]
  | cons s rest ih =>
      have hs := h s (List.mem_cons_self s rest)
      have ih' := ih (fun t ht => h t (List.mem_cons_of_mem s ht))
      cases hg : gives_apigateway_access s fn arn with
      | none =>
          rw [hg] at hs
          exact absurd hs (by simp)
      | some b =>
          cases b with
          | true =>
              simp [scanStatements, hg]
          | false =>
              simp only [scanStatements, hg]
              rw [ih']
              simp [hg]

lemma scanStatements_isSome (stmts : List Statement) (fn arn : String)
    (h : ∀ s ∈ stmts, (gives_apigateway_access s fn arn).isSome) :
    (scanStatements stmts fn arn).isSome := by
  induction stmts with
  | nil => simp [scanStatements]
  | cons s rest ih =>
      have hs := h s (List.mem_cons_self s rest)
      have ih' := ih (fun t ht => h t (List.mem_cons_of_mem s ht))
      cases hg : gives_apigateway_access s fn arn with
      | none =>
          rw [hg] at hs
          exact absurd hs (by simp)
      | some b =>
          cases b with
          | true => simp [scanStatements, hg]
          | false => simpa [scanStatements, hg] using ih'

lemma scanStatements_false_iff (stmts : List Statement) (fn arn : String)
    (h : ∀ s ∈ stmts, (gives_apigateway_access s fn arn).isSome) :
    scanStatements stmts fn arn = some false ↔
      ¬ ∃ s ∈ stmts, gives_apigateway_access s fn arn = some true := by
  rw [← scanStatements_true_iff stmts fn arn h]
  have hsome := scanStatements_isSome stmts fn arn h
  cases hscan : scanStatements stmts fn arn with
  | none =>
      rw [hscan] at hsome
      exact absurd hsome (by simp)
  | some b => cases b <;> simp

/-! ### Role deletion (`delete_role`, `delete_role_policy`; lines 189-192
and 214-223), as the sequence of IAM calls issued. -/

inductive IamCall where
  | listRolePolicies (roleName : String)
  | deleteRolePolicy (roleName policyName : String)
  | deleteRole (roleName : String)
  deriving DecidableEq, Repr

/-- `delete_role_policy` (lines 189-192). -/
def delete_role_policy (role_name policy_name : String) : List IamCall :=
  [.deleteRolePolicy role_name policy_name]

/-- `delete_role` (lines 214-223): list the inline policies
(`inline_policies` is the remote response), delete each, then delete the
role. -/
def delete_role (name : String) (inline_policies : List String) : List IamCall :=
  .listRolePolicies name ::
    ((inline_policies.map (fun policy_name => delete_role_policy name policy_name)).flatten ++
      [.deleteRole name])

def isPolicyDeletion : IamCall → Bool
  | .deleteRolePolicy _ _ => true
  | _ => false

def isRoleDeletion : IamCall → Bool
  | .deleteRole _ => true
  | _ => false

/-! ### SDK download (`download_sdk`, lines 366-400)

The zip extraction is modelled from the point where the archive has been
extracted: `extracted` is the list of top-level entries of the extraction
directory, `output_dir` the list of entries of the output directory. -/

inductive FsEntry where
  | dir (name : String) (contents : List String)
  | file (name : String)
  deriving DecidableEq, Repr

def entryName : FsEntry → String
  | .dir n _ => n
  | .file n => n

/-- `download_sdk` (lines 366-400) from extraction onwards: with exactly one
top-level entry that is a directory, rename it to `chalice-<sdk_type>-sdk`
and move it into the output directory; otherwise raise the structural
`RuntimeError` naming the entries found. -/
def download_sdk (sdk_type : String) (extracted output_dir : List FsEntry) :
    Except String (List FsEntry) :=
  match extracted with
  | [FsEntry.dir _ contents] =>
      .ok (output_dir ++ [.dir ("chalice-" ++ sdk_type ++ "-sdk") contents])
  | _ =>
      .error ("The downloaded SDK had an unexpected directory structure: " ++
        String.intercalate ", " (extracted.map entryName))

/-! ### `update_function` (lines 118-152), as the sequence of lambda calls
issued.  `returned_arn` is the `FunctionArn` of the `update_function_code`
response and `remote_tags` the `list_tags` response. -/

def update_function (function_name : String) (zip_contents : String)
    (environment_variables : Option TagSet) (runtime : Option String)
    (tags : Option TagSet) (timeout : Option Nat) (memory_size : Option Nat)
    (returned_arn : String) (remote_tags : TagSet) : List LambdaCall :=
  [LambdaCall.updateFunctionCode function_name zip_contents] ++
    (if environment_variables.isSome || runtime.isSome || timeout.isSome ||
        memory_size.isSome then
      [LambdaCall.updateFunctionConfiguration function_name
        environment_variables runtime timeout memory_size]
    else []) ++
    (match tags with
    | none => []
    | some requested => update_function_tags returned_arn requested remote_tags)

def isCodeUpdate : LambdaCall → Bool
  | .updateFunctionCode _ _ => true
  | _ => false

def isConfigUpdate : LambdaCall → Bool
  | .updateFunctionConfiguration _ _ _ _ _ => true
  | _ => false

def isTagOperation : LambdaCall → Bool
  | .listTags _ => true
  | .untagResource _ _ => true
  | .tagResource _ _ => true
  | _ => false

/-! ### Error translation (lines 52-59, 110-116, 180-187, 243-251, 270-276)

A provider failure is either the specific not-found class the `except`
clauses catch, or any other failure; a local result either succeeds, or
re-raises the provider failure verbatim, or raises one of the two local
error types. -/

inductive ProviderError where
  | notFound
  | other (msg : String)
  deriving DecidableEq, Repr

inductive LocalError where
  | provider (e : ProviderError)
  | resourceDoesNotExist (name : String)
  | valueError (msg : String)
  deriving DecidableEq, Repr

/-- `lambda_function_exists` (lines 52-59): `response` is the outcome of
`client.get_function`. -/
def lambda_function_exists (response : Except ProviderError Unit) :
    Except LocalError Bool :=
  match response with
  | .ok _ => .ok true
  | .error .notFound => .ok false
  | .error e => .error (.provider e)

/-- `delete_function` (lines 110-116). -/
def delete_function (function_name : String)
    (response : Except ProviderError Unit) : Except LocalError Unit :=
  match response with
  | .ok _ => .ok ()
  | .error .notFound => .error (.resourceDoesNotExist function_name)
  | .error e => .error (.provider e)

/-- `rest_api_exists` (lines 243-251). -/
def rest_api_exists (response : Except ProviderError Unit) :
    Except LocalError Bool :=
  match response with
  | .ok _ => .ok true
  | .error .notFound => .ok false
  | .error e => .error (.provider e)

/-- `delete_rest_api` (lines 270-276). -/
def delete_rest_api (rest_api_id : String)
    (response : Except ProviderError Unit) : Except LocalError Unit :=
  match response with
  | .ok _ => .ok ()
  | .error .notFound => .error (.resourceDoesNotExist rest_api_id)
  | .error e => .error (.provider e)

/-- `get_role_arn_for_name` (lines 180-187): a `NoSuchEntityException`
(the not-found class) is turned into `ValueError("No role ARN found for:
%s" % name)`. -/
def get_role_arn_for_name (name : String)
    (response : Except ProviderError String) : Except LocalError String :=
  match response with
  | .ok arn => .ok arn
  | .error .notFound => .error (.valueError ("No role ARN found for: " ++ name))
  | .error e => .error (.provider e)

/-! ### Connection cache (`_client`, lines 469-474; `__init__`, lines 46-50)

The cache is the `_client_cache` dict; a handle is identified by the order
in which `session.create_client` constructed it (`nextId` counts the
constructions performed so far). -/

def clientLookup (cache : List (String × Nat)) (name : String) : Option Nat :=
  match cache with
  | [] => none
  | (n, h) :: rest => if n = name then some h else clientLookup rest name

structure ClientState where
  cache : List (String × Nat)
  nextId : Nat
  deriving DecidableEq, Repr

/-- `_client` (lines 469-474): construct and store the handle on a cache
miss, then return the stored handle. -/
def client (service_name : String) (s : ClientState) : Nat × ClientState :=
  match clientLookup s.cache service_name with
  | some h => (h, s)
  | none => (s.nextId, ⟨s.cache ++ [(service_name, s.nextId)], s.nextId + 1⟩)

/-- A sequence of `_client` calls, returning the handle of each call. -/
def runClients (names : List String) (s : ClientState) :
    List Nat × ClientState :=
  match names with
  | [] => ([], s)
  | n :: rest =>
      ((client n s).1 :: (runClients rest (client n s).2).1,
        (runClients rest (client n s).2).2)

lemma client_hit {s : ClientState} {n : String} {h : Nat}
    (hl : clientLookup s.cache n = some h) : client n s = (h, s) := by
  rw [client, hl]

lemma clientLookup_append_left {cache : List (String × Nat)} {n : String}
    {h : Nat} (hl : clientLookup cache n = some h) (more : List (String × Nat)) :
    clientLookup (cache ++ more) n = some h := by
  induction cache with
  | nil => exact absurd hl (by simp [clientLookup])
  | cons kv rest ih =>
      obtain ⟨m, x⟩ := kv
      by_cases hm : m = n
      · subst hm
        rw [clientLookup] at hl
        rw [List.cons_append, clientLookup]
        simpa using hl
      · rw [clientLookup, if_neg hm] at hl
        rw [List.cons_append, clientLookup, if_neg hm]
        exact ih hl

lemma client_preserves {s : ClientState} {m : String} {h : Nat}
    (hl : clientLookup s.cache m = some h) (n : String) :
    clientLookup (client n s).2.cache m = some h := by
  rw [client]
  cases hn : clientLookup s.cache n with
  | some x => exact hl
  | none => exact clientLookup_append_left hl _

lemma clientLookup_append_self {cache : List (String × Nat)} {n : String}
    (hl : clientLookup cache n = none) (x : Nat) :
    clientLookup (cache ++ [(n, x)]) n = some x := by
  induction cache with
  | nil => simp [clientLookup]
  | cons kv rest ih =>
      obtain ⟨m, y⟩ := kv
      by_cases hm : m = n
      · subst hm
        rw [clientLookup] at hl
        simp at hl
      · rw [clientLookup, if_neg hm] at hl
        rw [List.cons_append, clientLookup, if_neg hm]
        exact ih hl

lemma client_stores (n : String) (s : ClientState) :
    clientLookup (client n s).2.cache n = some (client n s).1 := by
  rw [client]
  cases hn : clientLookup s.cache n with
  | some x => exact hn
  | none => exact clientLookup_append_self hn _

lemma runClients_preserves (m : String) (h : Nat) (names : List String) :
    ∀ s : ClientState, clientLookup s.cache m = some h →
      clientLookup (runClients names s).2.cache m = some h := by
  induction names with
  | nil =>
      intro s hl
      exact hl
  | cons n rest ih =>
      intro s hl
      rw [runClients]
      exact ih _ (client_preserves hl n)

lemma flatten_map_drp (name : String) (ps : List String) :
    (ps.map (fun p => delete_role_policy name p)).flatten =
      ps.map (fun p => IamCall.deleteRolePolicy name p) := by
  induction ps with
  | nil => rfl
  | cons p rest ih =>
      rw [List.map_cons, List.flatten_cons, ih]
      rfl

lemma delete_role_eq (name : String) (ps : List String) :
    delete_role name ps =
      (IamCall.listRolePolicies name ::
        ps.map (fun p => IamCall.deleteRolePolicy name p)) ++
        [IamCall.deleteRole name] := by
  simp only [delete_role, flatten_map_drp]
  rfl

lemma count_map_drp (name p : String) (ps : List String) :
    (ps.map (fun q => IamCall.deleteRolePolicy name q)).count
        (IamCall.deleteRolePolicy name p) = ps.count p := by
  induction ps with
  | nil => rfl
  | cons q rest ih =>
      rw [List.map_cons, List.count_cons, List.count_cons, ih]
      by_cases hq : q = p
      · subst hq
        simp
      · simp [hq]

lemma getElem_concat {α : Type} (pre : List α) (x : α) :
    ∀ (j : Nat) (hj : j < (pre ++ [x]).length),
      (pre ++ [x])[j] = if h : j < pre.length then pre[j] else x := by
  induction pre with
  | nil =>
      intro j hj
      have hj0 : j = 0 := by
        simp only [List.nil_append, List.length_singleton] at hj
        omega
      subst hj0
      simp
  | cons a pre ih =>
      intro j hj
      cases j with
      | zero => simp
      | succ n =>
          have hn : n < (pre ++ [x]).length := by
            simp only [List.cons_append, List.length_cons] at hj
            simpa using hj
          have hrec := ih n hn
          simp only [List.cons_append, List.getElem_cons_succ]
          rw [hrec]
          by_cases h : n < pre.length
          · rw [dif_pos h, dif_pos (by simp only [List.length_cons]; omega)]
          · rw [dif_neg h, dif_neg (by simp only [List.length_cons]; omega)]

/-- In a call sequence of the form `pre ++ [x]` where nothing in `pre`
satisfies `R` and the final call does not satisfy `P`, every `P`-call
precedes every `R`-call. -/
lemma order_general {α : Type} (pre : List α) (x : α) (P R : α → Bool)
    (hpre : ∀ c ∈ pre, R c = false) (hx : P x = false) :
    ∀ (i j : Nat) (hi : i < (pre ++ [x]).length)
      (hj : j < (pre ++ [x]).length),
      P ((pre ++ [x])[i]) = true → R ((pre ++ [x])[j]) = true → i < j := by
  intro i j hi hj hPi hRj
  have hleni : i < pre.length + 1 := by simpa using hi
  have hlenj : j < pre.length + 1 := by simpa using hj
  have hj' : j = pre.length := by
    by_contra hne
    have hjlt : j < pre.length := by omega
    rw [getElem_concat pre x j hj, dif_pos hjlt] at hRj
    have hmem : pre[j] ∈ pre := List.getElem_mem hjlt
    rw [hpre _ hmem] at hRj
    exact Bool.noConfusion hRj
  have hi' : i ≠ pre.length := by
    intro hieq
    rw [getElem_concat pre x i hi, dif_neg (by omega)] at hPi
    rw [hx] at hPi
    exact Bool.noConfusion hPi
  omega

lemma tagOp_not_code {c : LambdaCall} (h : isTagOperation c = true) :
    isCodeUpdate c = false := by
  cases c <;> simp [isTagOperation, isCodeUpdate] at h ⊢

lemma tagOp_not_config {c : LambdaCall} (h : isTagOperation c = true) :
    isConfigUpdate c = false := by
  cases c <;> simp [isTagOperation, isConfigUpdate] at h ⊢

lemma mem_update_function_tags (arn : String) (req rem : TagSet)
    (c : LambdaCall) (hc : c ∈ update_function_tags arn req rem) :
    isTagOperation c = true := by
  unfold update_function_tags at hc
  rcases List.mem_cons.1 hc with rfl | hc2
  · rfl
  rcases List.mem_append.1 hc2 with hc3 | hc3
  · unfold remove_unrequested_remote_tags at hc3
    by_cases hks : tag_keys_to_remove req rem = []
    · rw [if_pos hks] at hc3
      exact absurd hc3 (List.not_mem_nil c)
    · rw [if_neg hks] at hc3
      rw [List.mem_singleton.1 hc3]
      rfl
  · unfold add_missing_or_differing_value_requested_tags at hc3
    by_cases hts : tags_to_add req rem = []
    · rw [if_pos hts] at hc3
      exact absurd hc3 (List.not_mem_nil c)
    · rw [if_neg hts] at hc3
      rw [List.mem_singleton.1 hc3]
      rfl

lemma filter_code_update_function_tags (arn : String) (req rem : TagSet) :
    (update_function_tags arn req rem).filter isCodeUpdate = [] := by
  rw [List.filter_eq_nil_iff]
  intro c hc
  rw [tagOp_not_code (mem_update_function_tags arn req rem c hc)]
  simp

lemma filter_config_update_function_tags (arn : String) (req rem : TagSet) :
    (update_function_tags arn req rem).filter isConfigUpdate = [] := by
  rw [List.filter_eq_nil_iff]
  intro c hc
  rw [tagOp_not_config (mem_update_function_tags arn req rem c hc)]
  simp

lemma filter_tagOp_update_function_tags (arn : String) (req rem : TagSet) :
    (update_function_tags arn req rem).filter isTagOperation =
      update_function_tags arn req rem := by
  rw [List.filter_eq_self]
  exact fun c hc => mem_update_function_tags arn req rem c hc

end AwsClient

/-- C2: the removal keys are disjoint from the requested keys; the upsert
map is a sub-map of the requested tags; applying the removals then the
upserts to the remote tags yields exactly the requested tags; reconciling
against the result of a prior reconciliation computes no removals and no
upserts; and the untag/tag network calls are issued only with a non-empty
argument. -/
theorem C2_tag_reconcile (requested remote : AwsClient.TagSet)
    (hreq : AwsClient.nodupKeys requested) :
    (∀ k, k ∈ AwsClient.tag_keys_to_remove requested remote →
      ¬ k ∈ AwsClient.tagKeys requested) ∧
    (∀ k v, AwsClient.tagLookup (AwsClient.tags_to_add requested remote) k = some v →
      AwsClient.tagLookup requested k = some v) ∧
    (∀ k, AwsClient.tagLookup (AwsClient.applyReconcile requested remote) k =
      AwsClient.tagLookup requested k) ∧
    AwsClient.tag_keys_to_remove requested
      (AwsClient.applyReconcile requested remote) = [] ∧
    AwsClient.tags_to_add requested
      (AwsClient.applyReconcile requested remote) = [] ∧
    (∀ arn c, c ∈ AwsClient.remove_unrequested_remote_tags arn requested remote →
      c = .untagResource arn (AwsClient.tag_keys_to_remove requested remote) ∧
        AwsClient.tag_keys_to_remove requested remote ≠ []) ∧
    (∀ arn c,
      c ∈ AwsClient.add_missing_or_differing_value_requested_tags arn requested remote →
      c = .tagResource arn (AwsClient.tags_to_add requested remote) ∧
        AwsClient.tags_to_add requested remote ≠ []) := by
  have happly := AwsClient.tagLookup_applyReconcile requested remote hreq
  refine ⟨?_, ?_, happly, ?_, ?_, ?_, ?_⟩
  · intro k hk
    exact (AwsClient.mem_tag_keys_to_remove.1 hk).2
  · intro k v hk
    rw [show AwsClient.tags_to_add requested remote = requested.filter _ from rfl,
      AwsClient.tagLookup_filter _ hreq] at hk
    cases hr : AwsClient.tagLookup requested k with
    | none => rw [hr] at hk; exact Option.noConfusion hk
    | some w =>
        rw [hr] at hk
        simp only [Option.some_bind] at hk
        rcases ite_eq_iff.1 hk with ⟨_, h2⟩ | ⟨_, h2⟩
        · exact h2
        · exact Option.noConfusion h2
  · unfold AwsClient.tag_keys_to_remove
    rw [List.filter_eq_nil_iff]
    intro k hk
    simp only [decide_eq_true_eq, not_not]
    by_contra hmem
    have h1 : AwsClient.tagLookup requested k = none :=
      (AwsClient.tagLookup_eq_none_iff requested k).2 hmem
    have h2 : AwsClient.tagLookup (AwsClient.applyReconcile requested remote) k = none := by
      rw [happly k]
      exact h1
    exact absurd hk ((AwsClient.tagLookup_eq_none_iff _ k).1 h2)
  · unfold AwsClient.tags_to_add
    rw [List.filter_eq_nil_iff]
    intro kv hkv
    have hlook : AwsClient.tagLookup requested kv.1 = some kv.2 :=
      (AwsClient.tagLookup_eq_some_iff hreq kv.1 kv.2).2 (by
        cases kv
        exact hkv)
    rw [happly kv.1, hlook]
    simp
  · intro arn c hc
    unfold AwsClient.remove_unrequested_remote_tags at hc
    by_cases hks : AwsClient.tag_keys_to_remove requested remote = []
    · rw [if_pos hks] at hc
      exact absurd hc (List.not_mem_nil c)
    · rw [if_neg hks] at hc
      exact ⟨List.mem_singleton.1 hc, hks⟩
  · intro arn c hc
    unfold AwsClient.add_missing_or_differing_value_requested_tags at hc
    by_cases hts : AwsClient.tags_to_add requested remote = []
    · rw [if_pos hts] at hc
      exact absurd hc (List.not_mem_nil c)
    · rw [if_neg hts] at hc
      exact ⟨List.mem_singleton.1 hc, hts⟩

/-- Witness for C2 on the spec's end-to-end tag scenario. -/
theorem C2_tag_reconcile_witness :
    AwsClient.nodupKeys [("a", "1")] ∧
    AwsClient.tag_keys_to_remove [("a", "1")] [("a", "0"), ("b", "2")] = ["b"] ∧
    AwsClient.tags_to_add [("a", "1")] [("a", "0"), ("b", "2")] = [("a", "1")] ∧
    (∀ k, k ∈ AwsClient.tag_keys_to_remove [("a", "1")] [("a", "0"), ("b", "2")] →
      ¬ k ∈ AwsClient.tagKeys [("a", "1")]) := by
  have hnodup : AwsClient.nodupKeys [("a", "1")] := by
    unfold AwsClient.nodupKeys AwsClient.tagKeys
    decide
  refine ⟨hnodup, by decide, by decide, ?_⟩
  exact (C2_tag_reconcile [("a", "1")] [("a", "0"), ("b", "2")] hnodup).1

/-- C1: for every injector, if the create call fails with the transient
class on the first `k < LAMBDA_CREATE_ATTEMPTS` invocations and then
succeeds, `create_function` returns the ARN after `k + 1` calls and `k`
sleeps totalling `k * DELAY_TIME`; if it fails with the transient class on
the first `LAMBDA_CREATE_ATTEMPTS` invocations (hence at least ceiling
times), it re-raises the transient failure after exactly
`LAMBDA_CREATE_ATTEMPTS` sleeps (and as many calls); and if after `k`
transient failures the next invocation fails with a different class, that
failure propagates immediately after `k + 1` calls with no further sleep
beyond the `k` sleeps of the preceding retries. -/
theorem C1_create_function_retry (inj : Nat → AwsClient.CallOutcome)
    (k : Nat) (arn : String) :
    (k < AwsClient.LAMBDA_CREATE_ATTEMPTS →
      (∀ i, i < k → inj i = .invalidParameter) → inj k = .success arn →
      AwsClient.create_function inj =
        ⟨.ok arn, k + 1, k, k * AwsClient.DELAY_TIME⟩) ∧
    ((∀ i, i < AwsClient.LAMBDA_CREATE_ATTEMPTS →
        inj i = .invalidParameter) →
      AwsClient.create_function inj =
        ⟨.invalidParameterRaised, AwsClient.LAMBDA_CREATE_ATTEMPTS,
          AwsClient.LAMBDA_CREATE_ATTEMPTS,
          AwsClient.LAMBDA_CREATE_ATTEMPTS * AwsClient.DELAY_TIME⟩) ∧
    (k < AwsClient.LAMBDA_CREATE_ATTEMPTS →
      (∀ i, i < k → inj i = .invalidParameter) → inj k = .otherFailure →
      AwsClient.create_function inj =
        ⟨.otherRaised, k + 1, k, k * AwsClient.DELAY_TIME⟩) := by
  refine ⟨?_, ?_, ?_⟩
  · intro hk hfail hsucc
    apply AwsClient.createLoop_retries
    · simpa using hk
    · intro i hi
      simpa using hfail i hi
    · simpa using hsucc
  · intro hfail
    apply AwsClient.createLoop_exhausts
    · simp
    · simp [AwsClient.LAMBDA_CREATE_ATTEMPTS]
    · intro i hi
      simpa using hfail i hi
  · intro hk hfail hother
    apply AwsClient.createLoop_other_after
    · simpa using hk
    · intro i hi
      simpa using hfail i hi
    · simpa using hother

/-- Witness for C1: all three scenarios at concrete injectors — three
transient failures then success, transient failure at every attempt, and
two transient failures followed by an other-class failure. -/
theorem C1_create_function_retry_witness :
    AwsClient.create_function (AwsClient.failKThenSucceed 3 "arn:a") =
      ⟨.ok "arn:a", 4, 3, 15⟩ ∧
    AwsClient.create_function AwsClient.alwaysInvalid =
      ⟨.invalidParameterRaised, 30, 30, 150⟩ ∧
    AwsClient.create_function
        (fun i => if i < 2 then .invalidParameter else .otherFailure) =
      ⟨.otherRaised, 3, 2, 10⟩ := by
  refine ⟨?_, ?_, ?_⟩
  · exact (C1_create_function_retry (AwsClient.failKThenSucceed 3 "arn:a")
      3 "arn:a").1 (by decide)
      (fun i hi => by simp [AwsClient.failKThenSucceed, hi])
      (by simp [AwsClient.failKThenSucceed])
  · exact (C1_create_function_retry AwsClient.alwaysInvalid 0 "").2.1
      (fun i _ => rfl)
  · exact (C1_create_function_retry
      (fun i => if i < 2 then .invalidParameter else .otherFailure) 2 "").2.2
      (by decide) (fun i hi => by simp [hi]) (by simp)

/-- C3: the conditional grant issues the underlying add-permission call iff
no statement of the fetched policy matches the expected grant; a not-found
policy fetch is not propagated and the grant is issued unconditionally; and
the grant request carries the source ARN
`arn:aws:execute-api:<region>:<account>:<api-id>/*`. -/
theorem C3_grant_if_needed (function_name region_name account_id rest_api_id
    random_id : String) (policy : AwsClient.Policy)
    (h : ∀ s ∈ policy.statement.getD [],
      (AwsClient.gives_apigateway_access s function_name
        (AwsClient.build_source_arn_str region_name account_id
          rest_api_id)).isSome) :
    ((¬ ∃ s ∈ policy.statement.getD [],
        AwsClient.gives_apigateway_access s function_name
          (AwsClient.build_source_arn_str region_name account_id rest_api_id) =
          some true) →
      AwsClient.add_permission_for_apigateway_if_needed function_name
          region_name account_id rest_api_id random_id (.ok policy) =
        .calls (AwsClient.add_permission_for_apigateway function_name
          region_name account_id rest_api_id random_id)) ∧
    ((∃ s ∈ policy.statement.getD [],
        AwsClient.gives_apigateway_access s function_name
          (AwsClient.build_source_arn_str region_name account_id rest_api_id) =
          some true) →
      AwsClient.add_permission_for_apigateway_if_needed function_name
          region_name account_id rest_api_id random_id (.ok policy) =
        .calls []) ∧
    AwsClient.add_permission_for_apigateway_if_needed function_name region_name
        account_id rest_api_id random_id .resourceNotFound =
      .calls (AwsClient.add_permission_for_apigateway function_name region_name
        account_id rest_api_id random_id) ∧
    AwsClient.add_permission_for_apigateway function_name region_name
        account_id rest_api_id random_id =
      [.addPermission "lambda:InvokeFunction" function_name random_id
        "apigateway.amazonaws.com"
        ("arn:aws:execute-api:" ++ region_name ++ ":" ++ account_id ++ ":" ++
          rest_api_id ++ "/*")] := by
  refine ⟨?_, ?_, rfl, rfl⟩
  · intro hno
    have hscan := (AwsClient.scanStatements_false_iff _ _ _ h).2 hno
    simp [AwsClient.add_permission_for_apigateway_if_needed, hscan]
  · intro hyes
    have hscan := (AwsClient.scanStatements_true_iff _ _ _ h).2 hyes
    simp [AwsClient.add_permission_for_apigateway_if_needed, hscan]

/-- Witness for C3: a policy already granting access for the built source
ARN leads to no add-permission call. -/
theorem C3_grant_if_needed_witness :
    AwsClient.add_permission_for_apigateway_if_needed "f" "r" "a" "i" "id"
      (.ok ⟨some [⟨some "lambda:InvokeFunction",
        some ⟨some ⟨some "arn:aws:execute-api:r:a:i/*"⟩⟩,
        some ⟨some "apigateway.amazonaws.com"⟩, some "sid", some "res"⟩]⟩) =
      .calls [] := by
  exact (C3_grant_if_needed "f" "r" "a" "i" "id" _ (by decide)).2.1 (by decide)

/-- C4: a statement whose `Action` key is present counts as an existing
grant iff its action is `lambda:InvokeFunction`, its source-ARN condition
equals the expected source ARN exactly, and its principal service is
`apigateway.amazonaws.com`; the statement id and resource fields are
ignored; and for an empty statement list the scan finds no match. -/
theorem C4_statement_match (s : AwsClient.Statement) (a fn arn : String)
    (ha : s.action = some a) :
    (AwsClient.gives_apigateway_access s fn arn = some true ↔
      a = "lambda:InvokeFunction" ∧ AwsClient.statementSourceArn s = arn ∧
        AwsClient.statementPrincipalService s = "apigateway.amazonaws.com") ∧
    (∀ sid' res', AwsClient.gives_apigateway_access
        ⟨s.action, s.condition, s.principal, sid', res'⟩ fn arn =
      AwsClient.gives_apigateway_access s fn arn) ∧
    AwsClient.scanStatements [] fn arn = some false := by
  refine ⟨?_, ?_, rfl⟩
  · unfold AwsClient.gives_apigateway_access
    rw [ha]
    by_cases h1 : a = "lambda:InvokeFunction"
    · by_cases h2 : AwsClient.statementSourceArn s = arn
      · by_cases h3 : AwsClient.statementPrincipalService s =
            "apigateway.amazonaws.com"
        · simp [h1, h2, h3]
        · simp [h1, h2, h3]
      · simp [h1, h2]
    · simp [h1]
  · intro sid' res'
    rfl

/-- Witness for C4: a statement with the invoke action, matching source
ARN and gateway principal is recognised as a grant. -/
theorem C4_statement_match_witness :
    AwsClient.gives_apigateway_access
      ⟨some "lambda:InvokeFunction", some ⟨some ⟨some "X"⟩⟩,
        some ⟨some "apigateway.amazonaws.com"⟩, some "sid", some "res"⟩
      "f" "X" = some true := by
  exact (C4_statement_match _ "lambda:InvokeFunction" "f" "X" rfl).1.mpr
    ⟨rfl, rfl, rfl⟩

/-- C5: `delete_role` issues exactly one policy-deletion call per inline
policy of the role (and a single role-deletion call), and every
policy-deletion call occurs strictly before the role-deletion call in the
emitted call sequence. -/
theorem C5_delete_role_order (name : String) (ps : List String) :
    (AwsClient.delete_role name ps).count (.deleteRole name) = 1 ∧
    (∀ p, (AwsClient.delete_role name ps).count (.deleteRolePolicy name p) =
      ps.count p) ∧
    (∀ (i j : Nat) (hi : i < (AwsClient.delete_role name ps).length)
      (hj : j < (AwsClient.delete_role name ps).length),
      AwsClient.isPolicyDeletion (AwsClient.delete_role name ps)[i] = true →
      AwsClient.isRoleDeletion (AwsClient.delete_role name ps)[j] = true →
      i < j) := by
  refine ⟨?_, ?_, ?_⟩
  · rw [AwsClient.delete_role_eq]
    have h1 : (ps.map (fun p => AwsClient.IamCall.deleteRolePolicy name p)).count
        (AwsClient.IamCall.deleteRole name) = 0 := by
      rw [List.count_eq_zero]
      simp
    simp [List.count_append, List.count_cons, h1]
  · intro p
    rw [AwsClient.delete_role_eq]
    have h1 := AwsClient.count_map_drp name p ps
    simp [List.count_append, List.count_cons, h1]
  · simp only [AwsClient.delete_role_eq]
    apply AwsClient.order_general
    · intro c hc
      rcases List.mem_cons.1 hc with rfl | hc2
      · rfl
      · obtain ⟨p, _, rfl⟩ := List.mem_map.1 hc2
        rfl
    · rfl

/-- Witness for C5 with inline policies `{P1, P2}`: the policy deletion at
position 1 precedes the role deletion at position 3. -/
theorem C5_delete_role_order_witness :
    (1 : Nat) < 3 ∧
    (AwsClient.delete_role "r" ["P1", "P2"]).count (.deleteRole "r") = 1 := by
  constructor
  · exact (C5_delete_role_order "r" ["P1", "P2"]).2.2 1 3 (by decide)
      (by decide) (by decide) (by decide)
  · exact (C5_delete_role_order "r" ["P1", "P2"]).1

/-- C6: when the extracted archive has exactly one top-level entry and it
is a directory, the output directory ends up containing
`chalice-<sdk_type>-sdk` with that directory's contents; in every other
shape the operation raises the structural error naming the entries found
and leaves the output directory unmodified. -/
theorem C6_download_sdk (sdk_type : String)
    (extracted output_dir : List AwsClient.FsEntry) :
    (∀ d contents, extracted = [.dir d contents] →
      AwsClient.download_sdk sdk_type extracted output_dir =
        .ok (output_dir ++
          [.dir ("chalice-" ++ sdk_type ++ "-sdk") contents]) ∧
      AwsClient.FsEntry.dir ("chalice-" ++ sdk_type ++ "-sdk") contents ∈
        output_dir ++ [AwsClient.FsEntry.dir ("chalice-" ++ sdk_type ++ "-sdk")
          contents]) ∧
    ((∀ d contents, extracted ≠ [AwsClient.FsEntry.dir d contents]) →
      AwsClient.download_sdk sdk_type extracted output_dir =
        .error ("The downloaded SDK had an unexpected directory structure: " ++
          String.intercalate ", " (extracted.map AwsClient.entryName))) := by
  constructor
  · intro d contents hext
    subst hext
    exact ⟨rfl, by simp⟩
  · intro hne
    cases extracted with
    | nil => rfl
    | cons e rest =>
        cases rest with
        | nil =>
            cases e with
            | dir d c => exact absurd rfl (hne d c)
            | file n => rfl
        | cons e2 rest2 => cases e <;> cases e2 <;> rfl

/-- Witness for C6: two top-level files produce the structural error naming
both entries. -/
theorem C6_download_sdk_witness :
    AwsClient.download_sdk "javascript" [.file "a", .file "b"] [] =
      .error "The downloaded SDK had an unexpected directory structure: a, b" := by
  have h := (C6_download_sdk "javascript" [.file "a", .file "b"] []).2 (by
    intro d c hcontra
    simp at hcontra)
  exact h

/-- C7: `update_function` always issues exactly one code-update call; a
configuration-update call is issued iff at least one of the optional
configuration fields is provided, and it carries exactly the provided
fields; tag operations are performed iff `tags` is provided; and the
spec's end-to-end scenario produces exactly the expected call sequence. -/
theorem C7_update_function (fn zip : String) (env : Option AwsClient.TagSet)
    (rt : Option String) (tags : Option AwsClient.TagSet)
    (tmo memo : Option Nat) (arn : String) (remote : AwsClient.TagSet) :
    (AwsClient.update_function fn zip env rt tags tmo memo arn remote).filter
        AwsClient.isCodeUpdate = [.updateFunctionCode fn zip] ∧
    (AwsClient.LambdaCall.updateFunctionConfiguration fn env rt tmo memo ∈
        AwsClient.update_function fn zip env rt tags tmo memo arn remote ↔
      (env.isSome || rt.isSome || tmo.isSome || memo.isSome) = true) ∧
    (∀ n e r t m, AwsClient.LambdaCall.updateFunctionConfiguration n e r t m ∈
        AwsClient.update_function fn zip env rt tags tmo memo arn remote →
      n = fn ∧ e = env ∧ r = rt ∧ t = tmo ∧ m = memo) ∧
    (tags = none →
      (AwsClient.update_function fn zip env rt tags tmo memo arn remote).filter
        AwsClient.isTagOperation = []) ∧
    (∀ req, tags = some req →
      (AwsClient.update_function fn zip env rt tags tmo memo arn remote).filter
        AwsClient.isTagOperation =
        AwsClient.update_function_tags arn req remote) ∧
    AwsClient.update_function "f" "b" (some [("X", "1")]) none
        (some [("a", "1")]) none none "arn:f" [("a", "0"), ("b", "2")] =
      [.updateFunctionCode "f" "b",
        .updateFunctionConfiguration "f" (some [("X", "1")]) none none none,
        .listTags "arn:f", .untagResource "arn:f" ["b"],
        .tagResource "arn:f" [("a", "1")]] := by
  refine ⟨?_, ⟨?_, ?_⟩, ?_, ?_, ?_, ?_⟩
  · unfold AwsClient.update_function
    rw [List.filter_append, List.filter_append]
    have h2 : (if (env.isSome || rt.isSome || tmo.isSome || memo.isSome) = true
        then [AwsClient.LambdaCall.updateFunctionConfiguration fn env rt tmo
          memo] else []).filter AwsClient.isCodeUpdate = [] := by
      by_cases hc : (env.isSome || rt.isSome || tmo.isSome || memo.isSome) = true
      · rw [if_pos hc]
        rfl
      · rw [if_neg hc]
        rfl
    have h3 : (match tags with
        | none => []
        | some requested =>
            AwsClient.update_function_tags arn requested remote).filter
          AwsClient.isCodeUpdate = [] := by
      cases tags with
      | none => rfl
      | some req => exact AwsClient.filter_code_update_function_tags arn req remote
    rw [h2, h3]
    rfl
  · intro hmem
    unfold AwsClient.update_function at hmem
    by_cases hcond : (env.isSome || rt.isSome || tmo.isSome || memo.isSome) = true
    · exact hcond
    · exfalso
      rw [if_neg hcond] at hmem
      rcases List.mem_append.1 hmem with h1 | h2
      · simp at h1
      · cases htags : tags with
        | none =>
            rw [htags] at h2
            exact absurd h2 (List.not_mem_nil _)
        | some req =>
            rw [htags] at h2
            have := AwsClient.mem_update_function_tags arn req remote _ h2
            simp [AwsClient.isTagOperation] at this
  · intro hcond
    unfold AwsClient.update_function
    rw [if_pos hcond]
    apply List.mem_append.2
    apply Or.inl
    apply List.mem_append.2
    apply Or.inr
    exact List.mem_singleton.2 rfl
  · intro n e r t m hmem
    unfold AwsClient.update_function at hmem
    rcases List.mem_append.1 hmem with h1 | h2
    · rcases List.mem_append.1 h1 with h1a | h1b
      · simp at h1a
      · by_cases hcond : (env.isSome || rt.isSome || tmo.isSome || memo.isSome) = true
        · rw [if_pos hcond] at h1b
          have heq := List.mem_singleton.1 h1b
          injection heq with e1 e2 e3 e4 e5
          exact ⟨e1, e2, e3, e4, e5⟩
        · rw [if_neg hcond] at h1b
          exact absurd h1b (List.not_mem_nil _)
    · exfalso
      cases htags : tags with
      | none =>
          rw [htags] at h2
          exact absurd h2 (List.not_mem_nil _)
      | some req =>
          rw [htags] at h2
          have := AwsClient.mem_update_function_tags arn req remote _ h2
          simp [AwsClient.isTagOperation] at this
  · intro htags
    subst htags
    unfold AwsClient.update_function
    rw [List.filter_append, List.filter_append]
    have h2 : (if (env.isSome || rt.isSome || tmo.isSome || memo.isSome) = true
        then [AwsClient.LambdaCall.updateFunctionConfiguration fn env rt tmo
          memo] else []).filter AwsClient.isTagOperation = [] := by
      by_cases hc : (env.isSome || rt.isSome || tmo.isSome || memo.isSome) = true
      · rw [if_pos hc]
        rfl
      · rw [if_neg hc]
        rfl
    rw [h2]
    rfl
  · intro req htags
    subst htags
    unfold AwsClient.update_function
    rw [List.filter_append, List.filter_append]
    have h2 : (if (env.isSome || rt.isSome || tmo.isSome || memo.isSome) = true
        then [AwsClient.LambdaCall.updateFunctionConfiguration fn env rt tmo
          memo] else []).filter AwsClient.isTagOperation = [] := by
      by_cases hc : (env.isSome || rt.isSome || tmo.isSome || memo.isSome) = true
      · rw [if_pos hc]
        rfl
      · rw [if_neg hc]
        rfl
    rw [h2]
    rw [AwsClient.filter_tagOp_update_function_tags]
    rfl
  · rfl

/-- Witness for C7 on the spec's end-to-end scenario. -/
theorem C7_update_function_witness :
    (AwsClient.update_function "f" "b" (some [("X", "1")]) none
        (some [("a", "1")]) none none "arn:f"
        [("a", "0"), ("b", "2")]).filter AwsClient.isTagOperation =
      AwsClient.update_function_tags "arn:f" [("a", "1")]
        [("a", "0"), ("b", "2")] := by
  exact (C7_update_function "f" "b" (some [("X", "1")]) none
    (some [("a", "1")]) none none "arn:f"
    [("a", "0"), ("b", "2")]).2.2.2.2.1 [("a", "1")] rfl

/-- C8 counterexample: `get_role_arn_for_name` performs a third local
translation the claim does not allow — its not-found failure becomes a
`ValueError`, which is neither a boolean result, nor
`ResourceDoesNotExistError`, nor the verbatim provider failure. -/
theorem C8_counterexample :
    AwsClient.get_role_arn_for_name "myrole" (.error .notFound) =
      .error (.valueError "No role ARN found for: myrole") ∧
    AwsClient.get_role_arn_for_name "myrole" (.error .notFound) ≠
      .error (.provider .notFound) ∧
    AwsClient.get_role_arn_for_name "myrole" (.error .notFound) ≠
      .error (.resourceDoesNotExist "myrole") := by
  refine ⟨rfl, ?_, ?_⟩ <;> simp [AwsClient.get_role_arn_for_name]

/-- C8 (amended): three local failure translations exist: existence checks
translate not-found to `false`; `delete_function` and `delete_rest_api`
translate not-found to `ResourceDoesNotExistError`; and
`get_role_arn_for_name` translates its not-found class to
`ValueError("No role ARN found for: <name>")`.  Every other failure of
these operations is surfaced verbatim. -/
theorem C8_error_translations (name m arn : String) :
    AwsClient.lambda_function_exists (.error .notFound) = .ok false ∧
    AwsClient.lambda_function_exists (.error (.other m)) =
      .error (.provider (.other m)) ∧
    AwsClient.lambda_function_exists (.ok ()) = .ok true ∧
    AwsClient.rest_api_exists (.error .notFound) = .ok false ∧
    AwsClient.rest_api_exists (.error (.other m)) =
      .error (.provider (.other m)) ∧
    AwsClient.rest_api_exists (.ok ()) = .ok true ∧
    AwsClient.delete_function name (.error .notFound) =
      .error (.resourceDoesNotExist name) ∧
    AwsClient.delete_function name (.error (.other m)) =
      .error (.provider (.other m)) ∧
    AwsClient.delete_rest_api name (.error .notFound) =
      .error (.resourceDoesNotExist name) ∧
    AwsClient.delete_rest_api name (.error (.other m)) =
      .error (.provider (.other m)) ∧
    AwsClient.get_role_arn_for_name name (.error .notFound) =
      .error (.valueError ("No role ARN found for: " ++ name)) ∧
    AwsClient.get_role_arn_for_name name (.error (.other m)) =
      .error (.provider (.other m)) ∧
    AwsClient.get_role_arn_for_name name (.ok arn) = .ok arn :=
  ⟨rfl, rfl, rfl, rfl, rfl, rfl, rfl, rfl, rfl, rfl, rfl, rfl, rfl⟩

/-- C9: the connection cache returns the stored handle on a hit without any
construction or state change; on a miss it constructs exactly one handle
and stores it; a stored binding is never evicted or replaced by any later
call; and after any sequence of calls, a call for an already-cached name
still returns the originally stored handle with no construction. -/
theorem C9_client_cache (s : AwsClient.ClientState) (n : String) :
    (∀ h, AwsClient.clientLookup s.cache n = some h →
      AwsClient.client n s = (h, s)) ∧
    (AwsClient.clientLookup s.cache n = none →
      AwsClient.client n s =
        (s.nextId, ⟨s.cache ++ [(n, s.nextId)], s.nextId + 1⟩)) ∧
    AwsClient.clientLookup (AwsClient.client n s).2.cache n =
      some (AwsClient.client n s).1 ∧
    (∀ m h, AwsClient.clientLookup s.cache m = some h →
      AwsClient.clientLookup (AwsClient.client n s).2.cache m = some h) ∧
    (∀ names h, AwsClient.clientLookup s.cache n = some h →
      AwsClient.client n (AwsClient.runClients names s).2 =
        (h, (AwsClient.runClients names s).2)) := by
  refine ⟨?_, ?_, AwsClient.client_stores n s, ?_, ?_⟩
  · intro h hl
    exact AwsClient.client_hit hl
  · intro hl
    rw [AwsClient.client, hl]
  · intro m h hl
    exact AwsClient.client_preserves hl n
  · intro names h hl
    exact AwsClient.client_hit (AwsClient.runClients_preserves n h names s hl)

/-- Witness for C9: with `lambda` already cached as handle 0, a later call
for `lambda` after two interleaved calls still returns handle 0 and leaves
the state unchanged. -/
theorem C9_client_cache_witness :
    AwsClient.client "lambda"
      (AwsClient.runClients ["iam", "lambda"] ⟨[("lambda", 0)], 1⟩).2 =
      (0, (AwsClient.runClients ["iam", "lambda"] ⟨[("lambda", 0)], 1⟩).2) := by
  exact (C9_client_cache ⟨[("lambda", 0)], 1⟩ "lambda").2.2.2.2
    ["iam", "lambda"] 0 rfl

/-- C10 counterexample: a statement lacking the `Condition` key is *not*
always treated as a non-match — with an empty expected source ARN the
defaulted lookup chain yields `''` which compares equal, so the statement
matches. -/
theorem C10_counterexample :
    AwsClient.gives_apigateway_access
      ⟨some "lambda:InvokeFunction", none,
        some ⟨some "apigateway.amazonaws.com"⟩, none, none⟩ "f" "" =
      some true := by
  rfl

/-- C10 (amended): a statement lacking the `Action` key makes the check
raise a key-lookup failure instead of returning a boolean; a statement
lacking the `Principal` key is safely treated as a non-match; and a
statement lacking the `Condition` key is safely treated as a non-match
whenever the expected source ARN is non-empty (the defaulted condition
lookup yields the empty string). -/
theorem C10_match_partiality :
    (∀ (s : AwsClient.Statement) (fn arn : String), s.action = none →
      AwsClient.gives_apigateway_access s fn arn = none) ∧
    (∀ (s : AwsClient.Statement) (a fn arn : String), s.action = some a →
      s.principal = none →
      AwsClient.gives_apigateway_access s fn arn = some false) ∧
    (∀ (s : AwsClient.Statement) (a fn arn : String), s.action = some a →
      s.condition = none → arn ≠ "" →
      AwsClient.gives_apigateway_access s fn arn = some false) := by
  refine ⟨?_, ?_, ?_⟩
  · intro s fn arn ha
    unfold AwsClient.gives_apigateway_access
    rw [ha]
  · intro s a fn arn ha hp
    have hps : AwsClient.statementPrincipalService s = "" := by
      unfold AwsClient.statementPrincipalService
      rw [hp]
      rfl
    unfold AwsClient.gives_apigateway_access
    rw [ha]
    by_cases h1 : a = "lambda:InvokeFunction"
    · by_cases h2 : AwsClient.statementSourceArn s = arn
      · simp [h1, h2, hps]
      · simp [h1, h2]
    · simp [h1]
  · intro s a fn arn ha hc harn
    have hsa : AwsClient.statementSourceArn s = "" := by
      unfold AwsClient.statementSourceArn
      rw [hc]
      rfl
    unfold AwsClient.gives_apigateway_access
    rw [ha]
    by_cases h1 : a = "lambda:InvokeFunction"
    · have h2 : AwsClient.statementSourceArn s ≠ arn := by
        rw [hsa]
        exact fun hx => harn hx.symm
      simp [h1, h2]
    · simp [h1]

/-- Witness for C10: a statement with no keys at all makes the check raise;
a `Condition`-less statement is a non-match for the non-empty ARN `X`. -/
theorem C10_match_partiality_witness :
    AwsClient.gives_apigateway_access ⟨none, none, none, none, none⟩ "f" "X" =
      none ∧
    AwsClient.gives_apigateway_access
      ⟨some "lambda:InvokeFunction", none,
        some ⟨some "apigateway.amazonaws.com"⟩, none, none⟩ "f" "X" =
      some false := by
  constructor
  · exact C10_match_partiality.1 ⟨none, none, none, none, none⟩ "f" "X" rfl
  · exact C10_match_partiality.2.2 _ "lambda:InvokeFunction" "f" "X" rfl rfl
      (by decide)
